import Mathlib

/-!
# Café Fausse admin seeding routes — formal model

Shallow embedding of `backend/seed_routes.py`: the slot generator
`_slots_for_day`, the demo-customer provisioner `_ensure_demo_customers`,
the reservation seeders `_seed_reservations` / `_seed_capacity_scenario`
(with its inner `_fill_slot` loop), and the three admin route handlers.

Timestamps are modelled as wall-clock minutes since an arbitrary epoch:
a datetime on day `d` at `h:m` local time is `d * 1440 + h * 60 + m`.
The configured timezone has a fixed offset for the dinner window, so
wall-clock minute arithmetic is faithful to the `datetime` arithmetic
used by the source.
-/

namespace CafeFausse

/-- Maximum tables per slot (`MAX_PER_SLOT = 30` in the source). -/
def MAX_PER_SLOT : Nat := 30

/-! ## Slot generator (`_slots_for_day`) -/

/-- The body of the `while cur <= end` loop of `_slots_for_day`, with
structural fuel so that it evaluates by kernel reduction.  With
`0 < step`, fuel `endT + 1 - cur` is always sufficient. -/
def slotsGoAux (endT step : Nat) : Nat → Nat → List Nat
  | 0, _ => []
  | fuel + 1, cur => if cur ≤ endT then cur :: slotsGoAux endT step fuel (cur + step) else []

/-- The `while cur <= end` loop of `_slots_for_day`, on minute timestamps.
The source loop diverges when `step = 0` (see `slots_go_fuel` for the
faithful partial model of that case); this total version returns `[]`
there, and is only ever used with `0 < step`. -/
def slotsGo (endT step cur : Nat) : List Nat :=
  if step = 0 then [] else slotsGoAux endT step (endT + 1 - cur) cur

/-- `_slots_for_day(day, start_hour, end_hour, step_minutes)`: timestamps
from `start_hour:00` to `end_hour:00` inclusive on `day`, stepping by
`step` minutes. -/
def slots_for_day (day startHour endHour step : Nat) : List Nat :=
  slotsGo (day * 1440 + endHour * 60) step (day * 1440 + startHour * 60)

/-- The same `while` loop with explicit fuel, over `Int`, as the faithful
model of the possibly-diverging source loop: `none` means the loop has
not finished within `fuel` iterations. -/
def slots_go_fuel (endT step : Int) : Nat → Int → Option (List Int)
  | 0, _ => none
  | fuel + 1, cur =>
      if cur ≤ endT then (slots_go_fuel endT step fuel (cur + step)).map (cur :: ·)
      else some []

/-! ## Data model

The ORM model file is not among the sources; the two row types are
modelled from the spec §3. -/

/-- Modelled from the spec: a `customers` row — id, name, email (unique),
phone, newsletter flag (§3). -/
structure Customer where
  id : Nat
  name : String
  email : String
  phone : String
  newsletter_signup : Bool
deriving DecidableEq

/-- Modelled from the spec: the `customers` table — its rows plus the
identity sequence's next value (ids are assigned by the sequence; a
wipe restarts it at 1). -/
structure CustomerTable where
  rows : List Customer
  nextId : Nat
deriving DecidableEq

/-- Modelled from the spec: a `reservations` row — customer reference,
party size, time slot (as minutes), table number (§3). -/
structure Reservation where
  customerId : Nat
  partySize : Nat
  timeSlot : Nat
  tableNumber : Nat
deriving DecidableEq

/-! ## Demo customer provisioner (`_ensure_demo_customers`) -/

/-- The fixed demo table of `_ensure_demo_customers`:
(name, email, phone, newsletter_signup). -/
def demo_data : List (String × String × String × Bool) := [
  ("Avery Chen", "avery.chen@example.com", "202-555-0101", true),
  ("Jordan Patel", "jordan.patel@example.com", "202-555-0102", false),
  ("Riley Nguyen", "riley.nguyen@example.com", "202-555-0103", true),
  ("Samira Ali", "samira.ali@example.com", "202-555-0104", false),
  ("Diego Romero", "diego.romero@example.com", "202-555-0105", false),
  ("Priya Shah", "priya.shah@example.com", "202-555-0106", true),
  ("Maya Thompson", "maya.thompson@example.com", "202-555-0107", true),
  ("Ethan Rivera", "ethan.rivera@example.com", "202-555-0108", false),
  ("Zoe Park", "zoe.park@example.com", "202-555-0109", true),
  ("Leo Carter", "leo.carter@example.com", "202-555-0110", false)]

/-- SQL `LIKE '%@example.com'`: the email ends with `@example.com`. -/
def is_demo_email (e : String) : Bool := "@example.com".toList.isSuffixOf e.toList

/-- Id assignment performed by `session.flush()`: each new row receives
the next value of the identity sequence, in insertion order. -/
def assignIds (nextId : Nat) : List (String × String × String × Bool) → List Customer
  | [] => []
  | d :: ds => ⟨nextId, d.1, d.2.1, d.2.2.1, d.2.2.2⟩ :: assignIds (nextId + 1) ds

/-- The `existing` set of `_ensure_demo_customers`: emails of rows
matching `LIKE '%@example.com'`. -/
def existingEmails (db : CustomerTable) : List String :=
  (db.rows.filter (fun c => is_demo_email c.email)).map Customer.email

/-- The `to_add` selection of `_ensure_demo_customers`: demo entries
whose email is not among the existing demo-domain emails. -/
def missingOf (db : CustomerTable) : List (String × String × String × Bool) :=
  demo_data.filter (fun d => !((existingEmails db).contains d.2.1))

/-- `_ensure_demo_customers(session)`: collect existing demo-domain
emails, insert the demo rows whose email is missing, and return the
updated table together with all demo-domain customers ordered by id
(rows are kept in id order). -/
def ensure_demo_customers (db : CustomerTable) : CustomerTable × List Customer :=
  let newRows := assignIds db.nextId (missingOf db)
  let db' : CustomerTable := ⟨db.rows ++ newRows, db.nextId + newRows.length⟩
  (db', db'.rows.filter (fun c => is_demo_email c.email))

/-! ## Reservation seeder (`_seed_reservations`) -/

/-- `party_pattern = [2, 4, 3, 5, 2, 6]`. -/
def party_pattern : List Nat := [2, 4, 3, 5, 2, 6]

/-- Fallback row used for `List.getD`; never reached, because the
customer list is non-empty whenever reservations are created. -/
def defaultCustomer : Customer := ⟨0, "", "", "", false⟩

/-- Does a reservation for `(dt, table_n)` already exist?  Models
`session.query(Reservation.id).filter_by(time_slot=dt, table_number=table_n).first()`. -/
def hasReservation (rs : List Reservation) (dt tableN : Nat) : Bool :=
  rs.any (fun r => r.timeSlot == dt && r.tableNumber == tableN)

/-- The reservation row built in the loop body: customer chosen
cyclically by table number, party size cyclically from `party_pattern`. -/
def mkReservation (customers : List Customer) (dt tableN : Nat) : Reservation :=
  { customerId := (customers.getD ((tableN - 1) % customers.length) defaultCustomer).id
    partySize := party_pattern.getD ((tableN - 1) % party_pattern.length) 0
    timeSlot := dt
    tableNumber := tableN }

/-- One iteration of the `for table_n in range(1, n + 1)` loop shared by
`_seed_reservations` and `_fill_slot`: skip on collision, else append
the new row and bump the created counter.  `i` is the 0-based index, so
the table number is `i + 1`. -/
def slotStep (customers : List Customer) (dt : Nat)
    (acc : List Reservation × Nat) (i : Nat) : List Reservation × Nat :=
  if hasReservation acc.1 dt (i + 1) then acc
  else (acc.1 ++ [mkReservation customers dt (i + 1)], acc.2 + 1)

/-- `_fill_slot(dt, target_tables)` (and the identical inner loop of
`_seed_reservations` with `n = min(target, MAX_PER_SLOT)`): try table
numbers `1..n` against the current table, returning the new rows and
the number created. -/
def fill_slot (customers : List Customer) (dt n : Nat) (rs : List Reservation) :
    List Reservation × Nat :=
  (List.range n).foldl (slotStep customers dt) (rs, 0)

/-- Seeding mode: `"normal" | "small"`. -/
inductive Mode where
  | normal
  | small
deriving DecidableEq

/-- Hour of day of a minute timestamp (`dt.hour`). -/
def hourOf (dt : Nat) : Nat := dt % 1440 / 60

/-- Minute of hour of a minute timestamp (`dt.minute`). -/
def minuteOf (dt : Nat) : Nat := dt % 60

/-- Target occupancy chosen for a slot by `_seed_reservations`:
3 in small mode; the full 30 for the designated fully-booked 7 PM slot;
otherwise the hour-of-day load curve. -/
def targetFor (mode : Mode) (fullyBookDemo : Bool) (fullDayIdx d dt : Nat) : Nat :=
  match mode with
  | .small => min 3 MAX_PER_SLOT
  | .normal =>
    if fullyBookDemo ∧ d = fullDayIdx ∧ hourOf dt = 19 ∧ minuteOf dt = 0 then
      MAX_PER_SLOT
    else
      if hourOf dt < 18 then 8
      else if hourOf dt = 18 then 12
      else if hourOf dt = 19 then 18
      else if hourOf dt = 20 then 16
      else 10

/-- Accumulator of `_seed_reservations`: current reservation rows plus
the `created_slots` / `created_res` counters. -/
structure SeedAcc where
  reservations : List Reservation
  createdSlots : Nat
  createdRes : Nat
deriving DecidableEq

/-- Body of the `for dt in _slots_for_day(...)` loop: pick the target,
seed up to `min(target, MAX_PER_SLOT)` tables, update the counters. -/
def seedOneSlot (customers : List Customer) (mode : Mode) (fullyBookDemo : Bool)
    (fullDayIdx d : Nat) (acc : SeedAcc) (dt : Nat) : SeedAcc :=
  let target := targetFor mode fullyBookDemo fullDayIdx d dt
  let out := fill_slot customers dt (min target MAX_PER_SLOT) acc.reservations
  { reservations := out.1
    createdSlots := acc.createdSlots + (if 0 < out.2 then 1 else 0)
    createdRes := acc.createdRes + out.2 }

/-- Body of the `for d in range(days)` loop. -/
def seedOneDay (customers : List Customer) (mode : Mode) (fullyBookDemo : Bool)
    (fullDayIdx today startHour endHour step : Nat) (acc : SeedAcc) (d : Nat) : SeedAcc :=
  (slots_for_day (today + d) startHour endHour step).foldl
    (seedOneSlot customers mode fullyBookDemo fullDayIdx d) acc

/-- `_seed_reservations(session, days, start_hour, end_hour, step_minutes,
mode, fully_book_demo)` against a given starting state.  `today` is the
current date (`datetime.now(LOCAL_TZ).date()`), passed explicitly.
Returns the updated customer table and the final accumulator. -/
def seed_reservations (ct : CustomerTable) (today days startHour endHour step : Nat)
    (mode : Mode) (fullyBookDemo : Bool) (rs : List Reservation) :
    CustomerTable × SeedAcc :=
  let p := ensure_demo_customers ct
  if p.2.isEmpty then (p.1, ⟨rs, 0, 0⟩)
  else
    let fullDayIdx := min 2 (days - 1)
    (p.1, (List.range days).foldl
      (seedOneDay p.2 mode fullyBookDemo fullDayIdx today startHour endHour step)
      ⟨rs, 0, 0⟩)

/-! ## Capacity test scenario (`_seed_capacity_scenario`) -/

/-- Summary returned by `_seed_capacity_scenario` on success. -/
structure CapacityStats where
  slotFull : Nat
  slotAlmost : Nat
  createdFull : Nat
  createdAlmost : Nat
deriving DecidableEq

/-- `_seed_capacity_scenario(session, day_offset, hour, minute,
step_minutes)`: ensure demo customers, and unless none exist, wipe the
reservations table and fill slot A (`hour:minute` on day
`today + day_offset`) with 30 tables and slot B (one step later) with
29.  `none` models the `{"error": "no demo customers available"}`
early return, which leaves the reservations untouched. -/
def seed_capacity_scenario (ct : CustomerTable) (rs : List Reservation)
    (today dayOffset hour minute step : Nat) :
    CustomerTable × List Reservation × Option CapacityStats :=
  let p := ensure_demo_customers ct
  if p.2.isEmpty then (p.1, rs, none)
  else
    let slotFull := (today + dayOffset) * 1440 + hour * 60 + minute
    let slotAlmost := slotFull + step
    let f1 := fill_slot p.2 slotFull 30 []
    let f2 := fill_slot p.2 slotAlmost 29 f1.1
    (p.1, f2.1, some ⟨slotFull, slotAlmost, f1.2, f2.2⟩)

/-! ## Route handlers

A request carries an optional `X-Admin-Token` header and already-parsed
query parameters.  The persisted database is a `DBState`; the wipe is
committed before seeding (as in the source), and a database error during
the seeding step is injected through `seedError`, after which the
handler rolls the session back — discarding only uncommitted work — and
reports HTTP 500. -/

/-- Persisted database state. -/
structure DBState where
  customers : CustomerTable
  reservations : List Reservation
deriving DecidableEq

/-- Response of `/api/admin/seed` and `/api/admin/smallseed`. -/
inductive SeedResponse where
  /-- HTTP 401, body `{"error": "unauthorized"}`. -/
  | unauthorized
  /-- HTTP 200, body `{"ok": true, "wiped_customers": _, "created_slots": _,
  "created_reservations": _}`. -/
  | success (wipedCustomers : Bool) (createdSlots createdRes : Nat)
  /-- HTTP 500, body `{"ok": false, "error": msg}`. -/
  | failure (msg : String)
deriving DecidableEq

/-- HTTP status code of a seed response. -/
def SeedResponse.status : SeedResponse → Nat
  | .unauthorized => 401
  | .success _ _ _ => 200
  | .failure _ => 500

/-- `TRUNCATE TABLE reservations RESTART IDENTITY CASCADE` plus the
optional `TRUNCATE TABLE customers ...` (identity restarts at 1). -/
def wipeTables (wipeCustomers : Bool) (db : DBState) : DBState :=
  { customers := if wipeCustomers then ⟨[], 1⟩ else db.customers
    reservations := [] }

/-- `admin_seed` (`POST /api/admin/seed`): token check, wipe + commit,
seed in normal mode, commit.  `seedError = some msg` injects a database
error raised during `_seed_reservations`; the handler then rolls back
(discarding the uncommitted seeding work) and returns 500. -/
def admin_seed (adminToken : String) (reqToken : Option String)
    (today days startHour endHour step : Nat) (fullyBookDemo wipeCustomers : Bool)
    (seedError : Option String) (db : DBState) : SeedResponse × DBState :=
  if reqToken ≠ some adminToken then (.unauthorized, db)
  else
    let wiped := wipeTables wipeCustomers db
    match seedError with
    | some msg => (.failure msg, wiped)
    | none =>
      let out := seed_reservations wiped.customers today days startHour endHour step
        .normal fullyBookDemo wiped.reservations
      (.success wipeCustomers out.2.createdSlots out.2.createdRes,
       ⟨out.1, out.2.reservations⟩)

/-- `admin_small_seed` (`POST /api/admin/smallseed`): as `admin_seed`
but in small mode with `fully_book_demo=False`. -/
def admin_small_seed (adminToken : String) (reqToken : Option String)
    (today days startHour endHour step : Nat) (wipeCustomers : Bool)
    (seedError : Option String) (db : DBState) : SeedResponse × DBState :=
  if reqToken ≠ some adminToken then (.unauthorized, db)
  else
    let wiped := wipeTables wipeCustomers db
    match seedError with
    | some msg => (.failure msg, wiped)
    | none =>
      let out := seed_reservations wiped.customers today days startHour endHour step
        .small false wiped.reservations
      (.success wipeCustomers out.2.createdSlots out.2.createdRes,
       ⟨out.1, out.2.reservations⟩)

/-- Response of `/api/admin/seed_capacity`. -/
inductive CapResponse where
  /-- HTTP 200, body `{"ok": true, ...}` with the two slots and counts. -/
  | capOk (stats : CapacityStats)
  /-- HTTP 200, body `{"error": "no demo customers available"}`. -/
  | capNoCustomers
deriving DecidableEq

/-- HTTP status code of a capacity response (both bodies are returned
with `jsonify(result), 200`). -/
def CapResponse.status : CapResponse → Nat
  | .capOk _ => 200
  | .capNoCustomers => 200

/-- `admin_seed_capacity` (`POST /api/admin/seed_capacity`): the source
reads the `X-Admin-Token` header into a local variable but never
compares it to `ADMIN_TOKEN`, so the request proceeds regardless of
the token. -/
def admin_seed_capacity (adminToken : String) (reqToken : Option String)
    (today dayOffset hour minute step : Nat) (db : DBState) : CapResponse × DBState :=
  let o := seed_capacity_scenario db.customers db.reservations today dayOffset hour minute step
  match o.2.2 with
  | none => (.capNoCustomers, ⟨o.1, o.2.1⟩)
  | some stats => (.capOk stats, ⟨o.1, o.2.1⟩)

/-! ## Derived notions used in statements and proofs -/

/-- The uniqueness invariant of §3: no two reservations share the same
`(time_slot, table_number)` pair. -/
def noDupSlotTable (rs : List Reservation) : Prop :=
  rs.Pairwise (fun a b => ¬(a.timeSlot = b.timeSlot ∧ a.tableNumber = b.tableNumber))

instance (rs : List Reservation) : Decidable (noDupSlotTable rs) := by
  unfold noDupSlotTable
  infer_instance

/-- Number of reservations in a given time slot. -/
def countSlot (rs : List Reservation) (dt : Nat) : Nat :=
  (rs.filter (fun r => r.timeSlot == dt)).length

/-- Table numbers present in a given time slot, in row order. -/
def tablesAt (rs : List Reservation) (dt : Nat) : List Nat :=
  (rs.filter (fun r => r.timeSlot == dt)).map Reservation.tableNumber

/-- The rows `_seed_reservations` inserts for one slot that has no
pre-existing reservations: tables `1..min(target, MAX_PER_SLOT)`. -/
def blockFor (customers : List Customer) (mode : Mode) (fullyBookDemo : Bool)
    (fullDayIdx d dt : Nat) : List Reservation :=
  (List.range (min (targetFor mode fullyBookDemo fullDayIdx d dt) MAX_PER_SLOT)).map
    (fun i => mkReservation customers dt (i + 1))

/-- The `(day_index, slot)` pairs visited by `_seed_reservations`, in
iteration order. -/
def slotPairs (today days startHour endHour step : Nat) : List (Nat × Nat) :=
  (List.range days).flatMap
    (fun d => (slots_for_day (today + d) startHour endHour step).map (fun dt => (d, dt)))

/-- The slot-loop body as a function of a `(day_index, slot)` pair. -/
def pairStep (customers : List Customer) (mode : Mode) (fullyBookDemo : Bool)
    (fullDayIdx : Nat) (acc : SeedAcc) (p : Nat × Nat) : SeedAcc :=
  seedOneSlot customers mode fullyBookDemo fullDayIdx p.1 acc p.2

/-! ### Closed form of the slot loop -/

theorem slotsGoAux_closed (endT step : Nat) (hstep : 0 < step) :
    ∀ fuel cur, endT + 1 - cur ≤ fuel →
      slotsGoAux endT step fuel cur =
        (List.range (if cur ≤ endT then (endT - cur) / step + 1 else 0)).map
          (fun k => cur + k * step) := by
  intro fuel
  induction fuel with
  | zero =>
    intro cur hcur
    have hc : ¬ cur ≤ endT := by omega
    rw [slotsGoAux, if_neg hc]
    simp
  | succ n ih =>
    intro cur hcur
    rw [slotsGoAux]
    by_cases hc : cur ≤ endT
    · rw [if_pos hc, if_pos hc]
      rw [ih (cur + step) (by omega)]
      have hdiv : (endT - cur) / step + 1 =
          (if cur + step ≤ endT then (endT - (cur + step)) / step + 1 else 0) + 1 := by
        by_cases hcs : cur + step ≤ endT
        · rw [if_pos hcs]
          have h1 : endT - cur = (endT - (cur + step)) + step := by omega
          rw [h1, Nat.add_div_right _ hstep]
        · rw [if_neg hcs]
          have h2 : endT - cur < step := by omega
          rw [Nat.div_eq_of_lt h2]
      rw [hdiv, List.range_succ_eq_map, List.map_cons, List.map_map]
      rw [show cur + 0 * step = cur from by ring]
      congr 1
      apply List.map_congr_left
      intro k _
      simp only [Function.comp, Nat.succ_eq_add_one]
      ring
    · rw [if_neg hc, if_neg hc]
      simp

theorem slotsGo_closed (endT step : Nat) (hstep : 0 < step) : ∀ cur,
    slotsGo endT step cur =
      (List.range (if cur ≤ endT then (endT - cur) / step + 1 else 0)).map
        (fun k => cur + k * step) := by
  intro cur
  rw [slotsGo, if_neg (by omega)]
  exact slotsGoAux_closed endT step hstep _ cur le_rfl

/-- Every slot lies between the window start and the window end. -/
theorem mem_slotsGo_bounds (endT step : Nat) (hstep : 0 < step) (cur x : Nat)
    (hx : x ∈ slotsGo endT step cur) : cur ≤ x ∧ x ≤ endT := by
  rw [slotsGo_closed endT step hstep cur] at hx
  rcases List.mem_map.mp hx with ⟨k, hk, rfl⟩
  by_cases hc : cur ≤ endT
  · rw [if_pos hc] at hk
    rw [List.mem_range] at hk
    have hk' : k ≤ (endT - cur) / step := by omega
    have h1 : k * step ≤ ((endT - cur) / step) * step :=
      Nat.mul_le_mul_right step hk'
    have h2 : ((endT - cur) / step) * step ≤ endT - cur := Nat.div_mul_le_self _ _
    omega
  · rw [if_neg hc] at hk
    simp at hk

/-- Every slot of `slots_for_day` lies in the day's window. -/
theorem mem_slots_for_day_bounds (day startHour endHour step : Nat) (hstep : 0 < step)
    (x : Nat) (hx : x ∈ slots_for_day day startHour endHour step) :
    day * 1440 + startHour * 60 ≤ x ∧ x ≤ day * 1440 + endHour * 60 :=
  mem_slotsGo_bounds _ _ hstep _ _ hx

/-- The slots of a day are strictly increasing. -/
theorem slots_for_day_pairwise (day startHour endHour step : Nat) (hstep : 0 < step) :
    (slots_for_day day startHour endHour step).Pairwise (· < ·) := by
  unfold slots_for_day
  rw [slotsGo_closed _ _ hstep]
  rw [List.pairwise_map]
  refine (List.pairwise_lt_range _).imp ?_
  intro a b hab
  have := (Nat.mul_lt_mul_right hstep).mpr hab
  omega

/-- C3: for `start_hour ≤ end_hour` (valid hours) and `step > 0`,
`_slots_for_day` returns exactly `(end_hour - start_hour) * 60 / step + 1`
timestamps in strictly increasing order; the first is `start_hour:00` on
that day, every one is at most `end_hour:00`, and when `end_hour:00`
falls exactly on a step boundary it is included as a slot. -/
theorem slots_for_day_spec (day startHour endHour step : Nat)
    (hse : startHour ≤ endHour) (he : endHour ≤ 23) (hstep : 0 < step) :
    (slots_for_day day startHour endHour step).length
        = (endHour - startHour) * 60 / step + 1 ∧
    (slots_for_day day startHour endHour step).head?
        = some (day * 1440 + startHour * 60) ∧
    (slots_for_day day startHour endHour step).Pairwise (· < ·) ∧
    (∀ x ∈ slots_for_day day startHour endHour step, x ≤ day * 1440 + endHour * 60) ∧
    (step ∣ (endHour - startHour) * 60 →
      day * 1440 + endHour * 60 ∈ slots_for_day day startHour endHour step) := by
  have hc : day * 1440 + startHour * 60 ≤ day * 1440 + endHour * 60 := by omega
  have hsub : day * 1440 + endHour * 60 - (day * 1440 + startHour * 60)
      = (endHour - startHour) * 60 := by omega
  have hclosed : slots_for_day day startHour endHour step =
      (List.range ((endHour - startHour) * 60 / step + 1)).map
        (fun k => day * 1440 + startHour * 60 + k * step) := by
    unfold slots_for_day
    rw [slotsGo_closed _ _ hstep, if_pos hc, hsub]
  refine ⟨?_, ?_, ?_, ?_, ?_⟩
  · rw [hclosed]; simp
  · rw [hclosed, List.range_succ_eq_map]; simp
  · exact slots_for_day_pairwise day startHour endHour step hstep
  · intro x hx
    exact (mem_slots_for_day_bounds day startHour endHour step hstep x hx).2
  · intro hdvd
    rw [hclosed]
    refine List.mem_map.mpr ⟨(endHour - startHour) * 60 / step, List.mem_range.mpr (by omega), ?_⟩
    rw [Nat.div_mul_cancel hdvd]
    omega

/-- C4: when `end_hour` is strictly before `start_hour`, `_slots_for_day`
returns the empty sequence.  Stated both for the total model (`step > 0`)
and, via the fuel model, for every integer `step` and every amount of
fuel, so it covers malformed steps as well: the loop body returns `[]`
at once, with no error and no partial output. -/
theorem slots_for_day_empty (day startHour endHour step : Nat)
    (hlt : endHour < startHour) (hstep : 0 < step) :
    slots_for_day day startHour endHour step = [] ∧
    (∀ (d sh eh stepI : Int), eh < sh → ∀ fuel, 0 < fuel →
      slots_go_fuel (d * 1440 + eh * 60) stepI fuel (d * 1440 + sh * 60) = some []) := by
  constructor
  · unfold slots_for_day
    rw [slotsGo_closed _ _ hstep, if_neg (by omega)]
    simp
  · intro d sh eh stepI hlt' fuel hfuel
    match fuel, hfuel with
    | fuel + 1, _ =>
      rw [slots_go_fuel, if_neg (by nlinarith)]

/-- C9: termination of the `_slots_for_day` loop, on the fuel model.
With `step > 0` the loop finishes (some fuel suffices, and the result is
the total model `slotsGo`); with `step ≤ 0` and start ≤ end, no amount
of fuel ever finishes the loop — it diverges. -/
theorem slots_loop_termination :
    (∀ endT step cur : Int, 0 < step → ∃ fuel out,
      slots_go_fuel endT step fuel cur = some out) ∧
    (∀ endT step cur : Int, step ≤ 0 → cur ≤ endT → ∀ fuel,
      slots_go_fuel endT step fuel cur = none) := by
  constructor
  · intro endT step cur hstep
    suffices h : ∀ n cur, (endT + 1 - cur).toNat < n → ∃ out,
        slots_go_fuel endT step n cur = some out by
      obtain ⟨out, hout⟩ := h ((endT + 1 - cur).toNat + 1) cur (by omega)
      exact ⟨_, out, hout⟩
    intro n
    induction n with
    | zero => intro cur h; omega
    | succ n ih =>
      intro cur h
      by_cases hc : cur ≤ endT
      · obtain ⟨out, hout⟩ := ih (cur + step) (by omega)
        exact ⟨cur :: out, by rw [slots_go_fuel, if_pos hc, hout]; rfl⟩
      · exact ⟨[], by rw [slots_go_fuel, if_neg hc]⟩
  · intro endT step cur hstep hle fuel
    induction fuel generalizing cur with
    | zero => rfl
    | succ n ih =>
      rw [slots_go_fuel, if_pos hle, ih (cur + step) (by omega)]
      rfl

/-! ### Demo customer provisioner -/

theorem demo_emails_demo : ∀ d ∈ demo_data, is_demo_email d.2.1 = true := by decide

theorem demo_emails_nodup : (demo_data.map (fun d => d.2.1)).Nodup := by decide

theorem assignIds_map_email (nextId : Nat) (l : List (String × String × String × Bool)) :
    (assignIds nextId l).map Customer.email = l.map (fun d => d.2.1) := by
  induction l generalizing nextId with
  | nil => rfl
  | cons d ds ih => simp [assignIds, ih]

theorem assignIds_length (nextId : Nat) (l : List (String × String × String × Bool)) :
    (assignIds nextId l).length = l.length := by
  induction l generalizing nextId with
  | nil => rfl
  | cons d ds ih => simp [assignIds, ih]

theorem assignIds_id_bounds (nextId : Nat) (l : List (String × String × String × Bool)) :
    ∀ c ∈ assignIds nextId l, nextId ≤ c.id ∧ c.id < nextId + l.length := by
  induction l generalizing nextId with
  | nil => intro c hc; simp [assignIds] at hc
  | cons d ds ih =>
    intro c hc
    rw [assignIds] at hc
    rcases List.mem_cons.mp hc with h | h
    · subst h; simp
    · have := ih (nextId + 1) c h
      constructor <;> [omega; (simp only [List.length_cons]; omega)]

theorem assignIds_pairwise (nextId : Nat) (l : List (String × String × String × Bool)) :
    (assignIds nextId l).Pairwise (fun a b => a.id < b.id) := by
  induction l generalizing nextId with
  | nil => exact List.Pairwise.nil
  | cons d ds ih =>
    rw [assignIds]
    refine List.Pairwise.cons ?_ (ih (nextId + 1))
    intro c hc
    have := assignIds_id_bounds (nextId + 1) ds c hc
    simp only []
    omega

/-- Unfolding of `ensure_demo_customers`. -/
theorem ensure_eq (db : CustomerTable) :
    ensure_demo_customers db =
      (⟨db.rows ++ assignIds db.nextId (missingOf db),
        db.nextId + (assignIds db.nextId (missingOf db)).length⟩,
       (db.rows ++ assignIds db.nextId (missingOf db)).filter
         (fun c => is_demo_email c.email)) := rfl

/-- After a provisioner run, every demo email is present among the
demo-domain rows of the updated table. -/
theorem ensure_has_demo (db : CustomerTable) :
    ∀ d ∈ demo_data, ∃ c ∈ (ensure_demo_customers db).1.rows,
      is_demo_email c.email = true ∧ c.email = d.2.1 := by
  rw [ensure_eq]
  intro d hd
  by_cases hcont : (existingEmails db).contains d.2.1
  · have : d.2.1 ∈ existingEmails db := List.elem_iff.mp hcont
    rcases List.mem_map.mp this with ⟨c, hc, hce⟩
    rcases List.mem_filter.mp hc with ⟨hcrows, hcdemo⟩
    exact ⟨c, List.mem_append_left _ hcrows, hcdemo, hce⟩
  · have hdm : d ∈ missingOf db :=
      List.mem_filter.mpr ⟨hd, by
        rw [Bool.not_eq_true']
        exact Bool.eq_false_iff.mpr hcont⟩
    have : d.2.1 ∈ (assignIds db.nextId (missingOf db)).map Customer.email := by
      rw [assignIds_map_email]
      exact List.mem_map.mpr ⟨d, hdm, rfl⟩
    rcases List.mem_map.mp this with ⟨c, hc, hce⟩
    refine ⟨c, List.mem_append_right _ hc, ?_, hce⟩
    rw [hce]; exact demo_emails_demo d hd

/-- The provisioner's returned customer list is never empty: the first
demo account is always among the demo-domain rows. -/
theorem ensure_ne_nil (db : CustomerTable) :
    (ensure_demo_customers db).2.isEmpty = false := by
  obtain ⟨c, hc, hcdemo, _⟩ := ensure_has_demo db
    ("Avery Chen", "avery.chen@example.com", "202-555-0101", true) (by decide)
  have hmem : c ∈ (ensure_demo_customers db).2 :=
    List.mem_filter.mpr ⟨hc, hcdemo⟩
  cases hemp : (ensure_demo_customers db).2.isEmpty
  · rfl
  · rw [List.isEmpty_iff] at hemp
    rw [hemp] at hmem
    exact absurd hmem (List.not_mem_nil c)

/-- Invariants preserved by one provisioner run, plus: afterwards every
demo email is present among the demo-domain rows. -/
theorem ensure_run (db : CustomerTable)
    (huniq : (db.rows.map Customer.email).Nodup)
    (hsorted : db.rows.Pairwise (fun a b => a.id < b.id))
    (hbound : ∀ c ∈ db.rows, c.id < db.nextId) :
    ((ensure_demo_customers db).1.rows.map Customer.email).Nodup ∧
    (ensure_demo_customers db).1.rows.Pairwise (fun a b => a.id < b.id) ∧
    (∀ c ∈ (ensure_demo_customers db).1.rows, c.id < (ensure_demo_customers db).1.nextId) ∧
    (∀ d ∈ demo_data, ∃ c ∈ (ensure_demo_customers db).1.rows,
      is_demo_email c.email = true ∧ c.email = d.2.1) := by
  rw [ensure_eq]
  refine ⟨?_, ?_, ?_, ?_⟩
  · rw [List.map_append, List.nodup_append]
    refine ⟨huniq, ?_, ?_⟩
    · rw [assignIds_map_email]
      exact demo_emails_nodup.sublist ((List.filter_sublist _).map _)
    · intro e he hmem
      rw [assignIds_map_email] at hmem
      rcases List.mem_map.mp hmem with ⟨d, hd, rfl⟩
      rcases List.mem_filter.mp hd with ⟨hddemo, hdnot⟩
      rcases List.mem_map.mp he with ⟨c, hc, hce⟩
      have hcdemo : is_demo_email c.email = true := by
        rw [hce]; exact demo_emails_demo d hddemo
      have : d.2.1 ∈ existingEmails db := by
        rw [← hce]
        exact List.mem_map.mpr ⟨c, List.mem_filter.mpr ⟨hc, hcdemo⟩, rfl⟩
      rw [Bool.not_eq_true'] at hdnot
      exact absurd (List.elem_iff.mpr this) (by simp [List.contains] at hdnot ⊢; exact hdnot)
  · rw [List.pairwise_append]
    refine ⟨hsorted, assignIds_pairwise _ _, ?_⟩
    intro a ha b hb
    have h1 := hbound a ha
    have h2 := (assignIds_id_bounds _ _ b hb).1
    omega
  · intro c hc
    dsimp only at hc ⊢
    rcases List.mem_append.mp hc with h | h
    · have := hbound c h
      rw [assignIds_length]
      omega
    · have := (assignIds_id_bounds _ _ c h).2
      rw [assignIds_length]
      omega
  · have := ensure_has_demo db
    rw [ensure_eq] at this
    exact this

/-- When every demo email is already present among demo-domain rows,
the provisioner inserts nothing. -/
theorem ensure_noop (db : CustomerTable)
    (hall : ∀ d ∈ demo_data, ∃ c ∈ db.rows, is_demo_email c.email = true ∧ c.email = d.2.1) :
    ensure_demo_customers db =
      (db, db.rows.filter (fun c => is_demo_email c.email)) := by
  have hmiss : missingOf db = [] := by
    rw [missingOf, List.filter_eq_nil_iff]
    intro d hd
    rcases hall d hd with ⟨c, hc, hcdemo, hce⟩
    have hmem : d.2.1 ∈ existingEmails db :=
      List.mem_map.mpr ⟨c, List.mem_filter.mpr ⟨hc, hcdemo⟩, hce⟩
    have hc' : (existingEmails db).contains d.2.1 = true := List.elem_iff.mpr hmem
    simp [hc']
    exact hmem
  rw [ensure_eq, hmiss]
  simp [assignIds]

/-- C5: the demo customer provisioner is idempotent.  From any database
state satisfying the schema invariants (unique emails, rows in id order,
ids below the sequence value), running it twice in sequence: the second
run returns the same set (hence the same size) and changes nothing; each
run returns the full current set of demo-domain customers ordered by
identifier; and no duplicate emails occur. -/
theorem ensure_demo_customers_idempotent (db : CustomerTable)
    (huniq : (db.rows.map Customer.email).Nodup)
    (hsorted : db.rows.Pairwise (fun a b => a.id < b.id))
    (hbound : ∀ c ∈ db.rows, c.id < db.nextId) :
    (ensure_demo_customers (ensure_demo_customers db).1).2 = (ensure_demo_customers db).2 ∧
    (ensure_demo_customers (ensure_demo_customers db).1).1 = (ensure_demo_customers db).1 ∧
    ((ensure_demo_customers db).2.map Customer.email).Nodup ∧
    (ensure_demo_customers db).2.length
      = (ensure_demo_customers (ensure_demo_customers db).1).2.length ∧
    (ensure_demo_customers db).2
      = (ensure_demo_customers db).1.rows.filter (fun c => is_demo_email c.email) ∧
    (ensure_demo_customers db).2.Pairwise (fun a b => a.id < b.id) := by
  obtain ⟨h1, h2, h3, h4⟩ := ensure_run db huniq hsorted hbound
  have hnoop := ensure_noop (ensure_demo_customers db).1 h4
  have hr1 : (ensure_demo_customers db).2
      = (ensure_demo_customers db).1.rows.filter (fun c => is_demo_email c.email) := rfl
  refine ⟨?_, ?_, ?_, ?_, hr1, ?_⟩
  · rw [hnoop, ← hr1]
  · rw [hnoop]
  · rw [hr1]
    exact h1.sublist ((List.filter_sublist _).map _)
  · rw [hnoop, ← hr1]
  · rw [hr1]
    exact h2.sublist (List.filter_sublist _)

theorem ensure_demo_customers_idempotent_witness :
    ((((⟨[], 1⟩ : CustomerTable).rows.map Customer.email).Nodup
        ∧ (⟨[], 1⟩ : CustomerTable).rows.Pairwise (fun a b => a.id < b.id)
        ∧ ∀ c ∈ (⟨[], 1⟩ : CustomerTable).rows, c.id < (⟨[], 1⟩ : CustomerTable).nextId) ∧
      (ensure_demo_customers (ensure_demo_customers ⟨[], 1⟩).1).2
        = (ensure_demo_customers ⟨[], 1⟩).2) :=
  ⟨⟨by decide, by decide, by decide⟩,
   (ensure_demo_customers_idempotent ⟨[], 1⟩ (by decide) (by decide) (by decide)).1⟩

/-! ### Reservation seeder: fill loop lemmas -/

theorem foldl_preserves {α : Type _} {β : Type _} (P : α → Prop) (f : α → β → α)
    (hf : ∀ a b, P a → P (f a b)) : ∀ (l : List β) (a : α), P a → P (l.foldl f a) := by
  intro l
  induction l with
  | nil => intro a ha; exact ha
  | cons x xs ih => intro a ha; exact ih _ (hf a x ha)

theorem hasReservation_false_iff (rs : List Reservation) (dt tableN : Nat) :
    hasReservation rs dt tableN = false ↔
      ∀ r ∈ rs, ¬(r.timeSlot = dt ∧ r.tableNumber = tableN) := by
  rw [hasReservation, List.any_eq_false]
  constructor
  · intro h r hr
    have := h r hr
    simpa using this
  · intro h r hr
    simpa using h r hr

/-- Rows added by the fill loop: each new row is `mkReservation` at some
index from the iteration list, appended after the existing rows. -/
theorem fill_loop_extra (customers : List Customer) (dt : Nat) :
    ∀ (l : List Nat) (rs : List Reservation) (k : Nat), ∃ extra,
      (l.foldl (slotStep customers dt) (rs, k)).1 = rs ++ extra ∧
      ∀ r ∈ extra, ∃ i ∈ l, r = mkReservation customers dt (i + 1) := by
  intro l
  induction l with
  | nil => intro rs k; exact ⟨[], by simp, by simp⟩
  | cons x xs ih =>
    intro rs k
    rw [List.foldl_cons]
    by_cases h : hasReservation rs dt (x + 1)
    · rw [show slotStep customers dt (rs, k) x = (rs, k) from by rw [slotStep, if_pos h]]
      obtain ⟨extra, h1, h2⟩ := ih rs k
      refine ⟨extra, h1, ?_⟩
      intro r hr
      obtain ⟨i, hi, he⟩ := h2 r hr
      exact ⟨i, List.mem_cons_of_mem _ hi, he⟩
    · rw [show slotStep customers dt (rs, k) x
          = (rs ++ [mkReservation customers dt (x + 1)], k + 1) from by
        rw [slotStep, if_neg h]]
      obtain ⟨extra, h1, h2⟩ := ih (rs ++ [mkReservation customers dt (x + 1)]) (k + 1)
      refine ⟨mkReservation customers dt (x + 1) :: extra, by rw [h1]; simp, ?_⟩
      intro r hr
      rcases List.mem_cons.mp hr with rfl | hr
      · exact ⟨x, List.mem_cons_self _ _, rfl⟩
      · obtain ⟨i, hi, he⟩ := h2 r hr
        exact ⟨i, List.mem_cons_of_mem _ hi, he⟩

/-- On a slot with no pre-existing reservation, `_fill_slot` inserts all
`n` tables, in order. -/
theorem fill_slot_fresh (customers : List Customer) (dt : Nat) :
    ∀ (n : Nat) (rs : List Reservation), (∀ r ∈ rs, r.timeSlot ≠ dt) →
      fill_slot customers dt n rs
        = (rs ++ (List.range n).map (fun i => mkReservation customers dt (i + 1)), n) := by
  intro n
  induction n with
  | zero => intro rs _; simp [fill_slot]
  | succ n ih =>
    intro rs hrs
    rw [fill_slot, List.range_succ, List.foldl_append]
    have hstep : (List.range n).foldl (slotStep customers dt) (rs, 0)
        = (rs ++ (List.range n).map (fun i => mkReservation customers dt (i + 1)), n) := by
      have := ih rs hrs
      rwa [fill_slot] at this
    rw [hstep, List.foldl_cons, List.foldl_nil]
    have hfree : hasReservation
        (rs ++ (List.range n).map (fun i => mkReservation customers dt (i + 1)))
        dt (n + 1) = false := by
      rw [hasReservation_false_iff]
      intro r hr
      rcases List.mem_append.mp hr with h | h
      · exact fun hc => hrs r h hc.1
      · rcases List.mem_map.mp h with ⟨i, hi, rfl⟩
        rw [List.mem_range] at hi
        intro hc
        have : i + 1 = n + 1 := hc.2
        omega
    rw [show slotStep customers dt
        (rs ++ (List.range n).map (fun i => mkReservation customers dt (i + 1)), n) n
        = (rs ++ (List.range n).map (fun i => mkReservation customers dt (i + 1))
            ++ [mkReservation customers dt (n + 1)], n + 1) from by
      rw [slotStep, hfree]; simp]
    simp

/-- The fill loop preserves the `(time_slot, table_number)` uniqueness
invariant: a row is only inserted after the existence check fails. -/
theorem fill_loop_noDup (customers : List Customer) (dt : Nat) :
    ∀ (l : List Nat) (acc : List Reservation × Nat), noDupSlotTable acc.1 →
      noDupSlotTable ((l.foldl (slotStep customers dt) acc).1) := by
  intro l
  induction l with
  | nil => intro acc h; exact h
  | cons x xs ih =>
    intro acc h
    rw [List.foldl_cons]
    apply ih
    rw [slotStep]
    by_cases hx : hasReservation acc.1 dt (x + 1)
    · rw [if_pos hx]; exact h
    · rw [if_neg hx]
      show noDupSlotTable (acc.1 ++ [mkReservation customers dt (x + 1)])
      rw [noDupSlotTable, List.pairwise_append]
      refine ⟨h, by simp, ?_⟩
      intro a ha b hb
      rw [List.mem_singleton] at hb
      subst hb
      have := (hasReservation_false_iff acc.1 dt (x + 1)).mp
        (Bool.eq_false_iff.mpr hx) a ha
      simpa [mkReservation] using this

/-! ### Uniqueness invariant (C6) -/

theorem seedOneSlot_preserves (customers : List Customer) (mode : Mode)
    (fullyBookDemo : Bool) (fullDayIdx d : Nat) (acc : SeedAcc) (dt : Nat)
    (h : noDupSlotTable acc.reservations) :
    noDupSlotTable (seedOneSlot customers mode fullyBookDemo fullDayIdx d acc dt).reservations := by
  show noDupSlotTable
    (fill_slot customers dt (min (targetFor mode fullyBookDemo fullDayIdx d dt) MAX_PER_SLOT)
      acc.reservations).1
  rw [fill_slot]
  exact fill_loop_noDup customers dt _ (acc.reservations, 0) h

theorem seedOneDay_preserves (customers : List Customer) (mode : Mode)
    (fullyBookDemo : Bool) (fullDayIdx today startHour endHour step : Nat) (acc : SeedAcc)
    (d : Nat) (h : noDupSlotTable acc.reservations) :
    noDupSlotTable
      (seedOneDay customers mode fullyBookDemo fullDayIdx today startHour endHour step
        acc d).reservations := by
  rw [seedOneDay]
  exact foldl_preserves (fun a => noDupSlotTable a.reservations) _
    (fun a dt ha => seedOneSlot_preserves customers mode fullyBookDemo fullDayIdx d a dt ha)
    _ acc h

theorem seed_reservations_preserves_noDup (ct : CustomerTable)
    (today days startHour endHour step : Nat) (mode : Mode) (fullyBookDemo : Bool)
    (rs : List Reservation) (h : noDupSlotTable rs) :
    noDupSlotTable
      (seed_reservations ct today days startHour endHour step mode fullyBookDemo
        rs).2.reservations := by
  rw [seed_reservations]
  by_cases hemp : (ensure_demo_customers ct).2.isEmpty
  · simp only [hemp, if_pos]
    exact h
  · simp only [hemp, if_neg, Bool.false_eq_true, not_false_iff]
    exact foldl_preserves (fun a => noDupSlotTable a.reservations) _
      (fun a d ha => seedOneDay_preserves _ mode fullyBookDemo _ today startHour endHour step
        a d ha) _ ⟨rs, 0, 0⟩ h

/-- C6 counterexample: from a starting state that already contains two
reservations sharing `(time_slot, table_number)`, the seeder (here with
`days = 0`, a legal parameter choice) leaves them in place: the final
state still violates the uniqueness property the claim asserts for
every starting state. -/
theorem seed_reservations_dup_counterexample :
    ¬ noDupSlotTable
        (seed_reservations ⟨[], 1⟩ 0 0 17 23 30 .normal true
          [⟨1, 2, 1020, 1⟩, ⟨1, 2, 1020, 1⟩]).2.reservations := by decide

/-- C6 (amended): the seeder preserves the uniqueness invariant — if no
two reservations of the starting state share `(time_slot, table_number)`,
then none do after seeding, for every parameter choice; in particular
seeding twice in sequence (same or different parameters, no wipe in
between) never creates two reservations sharing a pair. -/
theorem seed_reservations_noDup (ct ct2 : CustomerTable)
    (today days startHour endHour step : Nat) (mode : Mode) (fullyBookDemo : Bool)
    (today2 days2 startHour2 endHour2 step2 : Nat) (mode2 : Mode) (fullyBookDemo2 : Bool)
    (rs : List Reservation) (h : noDupSlotTable rs) :
    noDupSlotTable
      (seed_reservations ct today days startHour endHour step mode fullyBookDemo
        rs).2.reservations ∧
    noDupSlotTable
      (seed_reservations ct2 today2 days2 startHour2 endHour2 step2 mode2 fullyBookDemo2
        (seed_reservations ct today days startHour endHour step mode fullyBookDemo
          rs).2.reservations).2.reservations := by
  have h1 := seed_reservations_preserves_noDup ct today days startHour endHour step mode
    fullyBookDemo rs h
  exact ⟨h1, seed_reservations_preserves_noDup ct2 today2 days2 startHour2 endHour2 step2 mode2
    fullyBookDemo2 _ h1⟩

theorem seed_reservations_noDup_witness :
    noDupSlotTable [] ∧
    noDupSlotTable
      (seed_reservations ⟨[], 1⟩ 0 1 17 17 30 .small false []).2.reservations :=
  ⟨by decide,
   (seed_reservations_noDup ⟨[], 1⟩ ⟨[], 1⟩ 0 1 17 17 30 .small false 0 1 17 17 30 .small false
     [] (by decide)).1⟩

/-! ### Seeding fresh slots: closed form -/

theorem foldl_flatMap_eq {α β γ : Type _} (f : α → List β) (g : γ → β → γ) :
    ∀ (l : List α) (init : γ),
      (l.flatMap f).foldl g init = l.foldl (fun acc a => (f a).foldl g acc) init := by
  intro l
  induction l with
  | nil => intro init; rfl
  | cons x xs ih =>
    intro init
    rw [List.flatMap_cons, List.foldl_append, List.foldl_cons, ih]

/-- The nested day/slot loops of `_seed_reservations` are the single
fold over its `(day_index, slot)` pairs in iteration order. -/
theorem seed_fold_eq_pairs (customers : List Customer) (mode : Mode) (fullyBookDemo : Bool)
    (fullDayIdx today days startHour endHour step : Nat) (init : SeedAcc) :
    (List.range days).foldl
      (seedOneDay customers mode fullyBookDemo fullDayIdx today startHour endHour step) init
    = (slotPairs today days startHour endHour step).foldl
        (pairStep customers mode fullyBookDemo fullDayIdx) init := by
  rw [slotPairs, foldl_flatMap_eq]
  refine List.foldl_ext _ _ init ?_
  intro acc d _
  rw [seedOneDay, List.foldl_map]
  rfl

/-- Every row of a block sits in the block's slot. -/
theorem blockFor_timeSlot (customers : List Customer) (mode : Mode) (fullyBookDemo : Bool)
    (fullDayIdx d dt : Nat) :
    ∀ r ∈ blockFor customers mode fullyBookDemo fullDayIdx d dt, r.timeSlot = dt := by
  intro r hr
  rcases List.mem_map.mp hr with ⟨i, _, rfl⟩
  rfl

/-- Folding the slot-pair loop over pairwise-distinct fresh slots appends
one full block per pair. -/
theorem pairs_fold_closed (customers : List Customer) (mode : Mode) (fullyBookDemo : Bool)
    (fullDayIdx : Nat) :
    ∀ (L : List (Nat × Nat)) (rs : List Reservation) (cs cr : Nat),
      (L.map Prod.snd).Nodup →
      (∀ r ∈ rs, ∀ p ∈ L, r.timeSlot ≠ p.2) →
      (L.foldl (pairStep customers mode fullyBookDemo fullDayIdx) ⟨rs, cs, cr⟩).reservations
        = rs ++ L.flatMap (fun p => blockFor customers mode fullyBookDemo fullDayIdx p.1 p.2) := by
  intro L
  induction L with
  | nil => intro rs cs cr _ _; simp
  | cons p L ih =>
    intro rs cs cr hnodup hfresh
    rw [List.foldl_cons]
    have hfreshp : ∀ r ∈ rs, r.timeSlot ≠ p.2 :=
      fun r hr => hfresh r hr p (List.mem_cons_self _ _)
    have hfill := fill_slot_fresh customers p.2
      (min (targetFor mode fullyBookDemo fullDayIdx p.1 p.2) MAX_PER_SLOT) rs hfreshp
    have hstep : pairStep customers mode fullyBookDemo fullDayIdx ⟨rs, cs, cr⟩ p
        = ⟨rs ++ blockFor customers mode fullyBookDemo fullDayIdx p.1 p.2,
           cs + (if 0 < min (targetFor mode fullyBookDemo fullDayIdx p.1 p.2) MAX_PER_SLOT
                 then 1 else 0),
           cr + min (targetFor mode fullyBookDemo fullDayIdx p.1 p.2) MAX_PER_SLOT⟩ := by
      simp only [pairStep, seedOneSlot, hfill, blockFor]
    rw [hstep]
    have hsnd : (L.map Prod.snd).Nodup := (List.nodup_cons.mp (by simpa using hnodup)).2
    have hnotin : p.2 ∉ L.map Prod.snd := (List.nodup_cons.mp (by simpa using hnodup)).1
    rw [ih (rs ++ blockFor customers mode fullyBookDemo fullDayIdx p.1 p.2)
      (cs + if 0 < min (targetFor mode fullyBookDemo fullDayIdx p.1 p.2) MAX_PER_SLOT
            then 1 else 0)
      (cr + min (targetFor mode fullyBookDemo fullDayIdx p.1 p.2) MAX_PER_SLOT) hsnd ?_]
    · rw [List.flatMap_cons, List.append_assoc]
    · intro r hr q hq
      rcases List.mem_append.mp hr with h | h
      · exact hfresh r h q (List.mem_cons_of_mem _ hq)
      · rw [blockFor_timeSlot customers mode fullyBookDemo fullDayIdx p.1 p.2 r h]
        intro hc
        exact hnotin (hc ▸ List.mem_map.mpr ⟨q, hq, rfl⟩)

/-- Filtering rows of the form `mkReservation _ dt _` by their own slot
keeps them all. -/
theorem filter_mkRes_self (customers : List Customer) (dt n : Nat) :
    ((List.range n).map (fun i => mkReservation customers dt (i + 1))).filter
        (fun r => r.timeSlot == dt)
      = (List.range n).map (fun i => mkReservation customers dt (i + 1)) := by
  rw [List.filter_eq_self]
  intro r hr
  rcases List.mem_map.mp hr with ⟨i, _, rfl⟩
  simp [mkReservation]

/-- Filtering rows of the form `mkReservation _ dt _` by a different
slot removes them all. -/
theorem filter_mkRes_ne (customers : List Customer) (dt q n : Nat) (h : dt ≠ q) :
    ((List.range n).map (fun i => mkReservation customers dt (i + 1))).filter
        (fun r => r.timeSlot == q) = [] := by
  rw [List.filter_eq_nil_iff]
  intro r hr
  rcases List.mem_map.mp hr with ⟨i, _, rfl⟩
  simp [mkReservation, h]

/-- A concatenation of blocks over pairwise-distinct slots, filtered at
one of those slots, is exactly that slot's block. -/
theorem filter_blocks_eq (customers : List Customer) (mode : Mode) (fullyBookDemo : Bool)
    (fullDayIdx : Nat) :
    ∀ (L : List (Nat × Nat)) (d q : Nat), (L.map Prod.snd).Nodup → (d, q) ∈ L →
      ((L.flatMap (fun p => blockFor customers mode fullyBookDemo fullDayIdx p.1 p.2)).filter
          (fun r => r.timeSlot == q))
        = blockFor customers mode fullyBookDemo fullDayIdx d q := by
  intro L
  induction L with
  | nil => intro d q _ h; simp at h
  | cons p L ih =>
    intro d q hnodup hmem
    have hsnd : (L.map Prod.snd).Nodup := (List.nodup_cons.mp (by simpa using hnodup)).2
    have hnotin : p.2 ∉ L.map Prod.snd := (List.nodup_cons.mp (by simpa using hnodup)).1
    rw [List.flatMap_cons, List.filter_append]
    rcases List.mem_cons.mp hmem with heq | hmem'
    · have hp2 : p.2 = q := by rw [← heq]
      have hp1 : p.1 = d := by rw [← heq]
      have htail : (L.flatMap (fun p => blockFor customers mode fullyBookDemo fullDayIdx
          p.1 p.2)).filter (fun r => r.timeSlot == q) = [] := by
        rw [List.filter_eq_nil_iff]
        intro r hr
        rcases List.mem_flatMap.mp hr with ⟨p', hp', hrp'⟩
        have hts := blockFor_timeSlot customers mode fullyBookDemo fullDayIdx p'.1 p'.2 r hrp'
        have : p'.2 ≠ q := by
          intro hc
          exact hnotin (by rw [hp2, ← hc]; exact List.mem_map.mpr ⟨p', hp', rfl⟩)
        simp [hts, this]
      rw [htail, List.append_nil, hp1, hp2, blockFor, filter_mkRes_self, ← blockFor]
    · have hq : q ∈ L.map Prod.snd := List.mem_map.mpr ⟨(d, q), hmem', rfl⟩
      have hpq : p.2 ≠ q := fun hc => hnotin (hc ▸ hq)
      rw [show (blockFor customers mode fullyBookDemo fullDayIdx p.1 p.2).filter
          (fun r => r.timeSlot == q) = [] from by
        rw [blockFor]; exact filter_mkRes_ne customers p.2 q _ hpq]
      rw [List.nil_append]
      exact ih d q hsnd hmem'

theorem slotPairs_snd (today days startHour endHour step : Nat) :
    (slotPairs today days startHour endHour step).map Prod.snd
      = (List.range days).flatMap
          (fun d => slots_for_day (today + d) startHour endHour step) := by
  rw [slotPairs, List.map_flatMap]
  congr 1
  funext d
  rw [List.map_map]
  simp

theorem slots_flat_pairwise (today startHour endHour step : Nat) (he : endHour ≤ 23)
    (hstep : 0 < step) : ∀ days,
    ((List.range days).flatMap
      (fun d => slots_for_day (today + d) startHour endHour step)).Pairwise (· < ·) := by
  intro days
  induction days with
  | zero => simp
  | succ n ih =>
    rw [List.range_succ, List.flatMap_append, List.pairwise_append]
    refine ⟨ih, ?_, ?_⟩
    · rw [List.flatMap_singleton]
      exact slots_for_day_pairwise _ _ _ _ hstep
    · intro x hx y hy
      rw [List.flatMap_singleton] at hy
      rcases List.mem_flatMap.mp hx with ⟨d, hd, hxd⟩
      rw [List.mem_range] at hd
      have hbx := mem_slots_for_day_bounds _ _ _ _ hstep x hxd
      have hby := mem_slots_for_day_bounds _ _ _ _ hstep y hy
      omega

theorem slotPairs_snd_nodup (today days startHour endHour step : Nat)
    (he : endHour ≤ 23) (hstep : 0 < step) :
    ((slotPairs today days startHour endHour step).map Prod.snd).Nodup := by
  rw [slotPairs_snd]
  exact (slots_flat_pairwise today startHour endHour step he hstep days).imp
    (fun h => Nat.ne_of_lt h)

/-- Starting from an empty reservations table, the rows at slot `q` of
day-index `d` are exactly that slot's block. -/
theorem seed_fresh_filter (ct : CustomerTable) (today days startHour endHour step : Nat)
    (mode : Mode) (fullyBookDemo : Bool) (he : endHour ≤ 23) (hstep : 0 < step)
    (d q : Nat) (hd : d < days)
    (hq : q ∈ slots_for_day (today + d) startHour endHour step) :
    ((seed_reservations ct today days startHour endHour step mode fullyBookDemo
        []).2.reservations).filter (fun r => r.timeSlot == q)
      = blockFor (ensure_demo_customers ct).2 mode fullyBookDemo (min 2 (days - 1)) d q := by
  rw [seed_reservations]
  have hne := ensure_ne_nil ct
  simp only [hne, Bool.false_eq_true, if_false]
  rw [seed_fold_eq_pairs]
  rw [pairs_fold_closed (ensure_demo_customers ct).2 mode fullyBookDemo (min 2 (days - 1))
    (slotPairs today days startHour endHour step) [] 0 0
    (slotPairs_snd_nodup today days startHour endHour step he hstep)
    (by intro r hr; simp at hr)]
  rw [List.nil_append]
  exact filter_blocks_eq (ensure_demo_customers ct).2 mode fullyBookDemo (min 2 (days - 1))
    (slotPairs today days startHour endHour step) d q
    (slotPairs_snd_nodup today days startHour endHour step he hstep)
    (by
      rw [slotPairs]
      exact List.mem_flatMap.mpr ⟨d, List.mem_range.mpr hd, List.mem_map.mpr ⟨q, hq, rfl⟩⟩)

/-- C7: normal-mode seeding from an empty reservations table with
`fully_book_demo=true`, `days=7` and the default window (17–23, step 30):
the day-index-2 19:00 slot receives exactly 30 reservations with table
numbers 1..30 (one per table), and every other slot receives exactly the
hour-of-day target: 8 below 18:00, 12 at 18:00, 18 at 19:00, 16 at
20:00, and 10 for 21:00–23:00 — with table numbers 1..target. -/
theorem seed_normal_curve (ct : CustomerTable) (today d : Nat) (hd : d < 7)
    (q : Nat) (hq : q ∈ slots_for_day (today + d) 17 23 30) :
    countSlot (seed_reservations ct today 7 17 23 30 .normal true []).2.reservations q
      = (if d = 2 ∧ hourOf q = 19 ∧ minuteOf q = 0 then 30
         else if hourOf q < 18 then 8
         else if hourOf q = 18 then 12
         else if hourOf q = 19 then 18
         else if hourOf q = 20 then 16
         else 10) ∧
    tablesAt (seed_reservations ct today 7 17 23 30 .normal true []).2.reservations q
      = (List.range (if d = 2 ∧ hourOf q = 19 ∧ minuteOf q = 0 then 30
         else if hourOf q < 18 then 8
         else if hourOf q = 18 then 12
         else if hourOf q = 19 then 18
         else if hourOf q = 20 then 16
         else 10)).map (fun i => i + 1) := by
  have hfilter := seed_fresh_filter ct today 7 17 23 30 .normal true (by omega) (by omega)
    d q hd hq
  have hfdi : min 2 (7 - 1) = 2 := rfl
  rw [hfdi] at hfilter
  have htarget : min (targetFor .normal true 2 d q) MAX_PER_SLOT
      = (if d = 2 ∧ hourOf q = 19 ∧ minuteOf q = 0 then 30
         else if hourOf q < 18 then 8
         else if hourOf q = 18 then 12
         else if hourOf q = 19 then 18
         else if hourOf q = 20 then 16
         else 10) := by
    by_cases hfull : d = 2 ∧ hourOf q = 19 ∧ minuteOf q = 0
    · simp [targetFor, MAX_PER_SLOT, hfull]
    · by_cases h17 : hourOf q < 18
      · simp [targetFor, MAX_PER_SLOT, hfull, h17]
      · by_cases h18 : hourOf q = 18
        · simp [targetFor, MAX_PER_SLOT, hfull, h17, h18]
        · by_cases h19 : hourOf q = 19
          · have hfull' : ¬(d = 2 ∧ minuteOf q = 0) := fun hc => hfull ⟨hc.1, h19, hc.2⟩
            simp [targetFor, MAX_PER_SLOT, hfull, h17, h18, h19, hfull']
          · by_cases h20 : hourOf q = 20
            · simp [targetFor, MAX_PER_SLOT, hfull, h17, h18, h19, h20]
            · simp [targetFor, MAX_PER_SLOT, hfull, h17, h18, h19, h20]
  constructor
  · rw [countSlot, hfilter, blockFor, List.length_map, List.length_range, htarget]
  · rw [tablesAt, hfilter, blockFor, List.map_map, htarget]
    rfl

theorem seed_normal_curve_witness :
    (2 < 7 ∧ (2 * 1440 + 19 * 60) ∈ slots_for_day (0 + 2) 17 23 30) ∧
    countSlot (seed_reservations ⟨[], 1⟩ 0 7 17 23 30 .normal true []).2.reservations
        (2 * 1440 + 19 * 60)
      = (if 2 = 2 ∧ hourOf (2 * 1440 + 19 * 60) = 19 ∧ minuteOf (2 * 1440 + 19 * 60) = 0
         then 30
         else if hourOf (2 * 1440 + 19 * 60) < 18 then 8
         else if hourOf (2 * 1440 + 19 * 60) = 18 then 12
         else if hourOf (2 * 1440 + 19 * 60) = 19 then 18
         else if hourOf (2 * 1440 + 19 * 60) = 20 then 16
         else 10) :=
  ⟨⟨by decide, by decide⟩,
   (seed_normal_curve ⟨[], 1⟩ 0 2 (by decide) (2 * 1440 + 19 * 60) (by decide)).1⟩

/-- C8: the capacity scenario with `day_offset=0, hour=19, minute=0,
step=30` ignores the pre-existing reservations (wipe), and leaves
exactly 30 reservations at 19:00 and exactly 29 at 19:30, with table
numbers 1..30 and 1..29 each used exactly once per slot. -/
theorem seed_capacity_spec (ct : CustomerTable) (rs : List Reservation) (today : Nat) :
    (seed_capacity_scenario ct rs today 0 19 0 30).2.2
      = some ⟨today * 1440 + 1140, today * 1440 + 1170, 30, 29⟩ ∧
    (seed_capacity_scenario ct rs today 0 19 0 30).2.1
      = (List.range 30).map
          (fun i => mkReservation (ensure_demo_customers ct).2 (today * 1440 + 1140) (i + 1))
        ++ (List.range 29).map
          (fun i => mkReservation (ensure_demo_customers ct).2 (today * 1440 + 1170) (i + 1)) ∧
    countSlot (seed_capacity_scenario ct rs today 0 19 0 30).2.1 (today * 1440 + 1140) = 30 ∧
    countSlot (seed_capacity_scenario ct rs today 0 19 0 30).2.1 (today * 1440 + 1170) = 29 ∧
    tablesAt (seed_capacity_scenario ct rs today 0 19 0 30).2.1 (today * 1440 + 1140)
      = (List.range 30).map (fun i => i + 1) ∧
    tablesAt (seed_capacity_scenario ct rs today 0 19 0 30).2.1 (today * 1440 + 1170)
      = (List.range 29).map (fun i => i + 1) := by
  have hne := ensure_ne_nil ct
  have e1 : (today + 0) * 1440 + 19 * 60 + 0 = today * 1440 + 1140 := by ring
  have e2 : today * 1440 + 1140 + 30 = today * 1440 + 1170 := by ring
  have hA := fill_slot_fresh (ensure_demo_customers ct).2 ((today + 0) * 1440 + 19 * 60 + 0) 30
    ([] : List Reservation) (by intro r hr; simp at hr)
  rw [List.nil_append] at hA
  have hfreshB : ∀ r ∈ (List.range 30).map (fun i => mkReservation (ensure_demo_customers ct).2
      ((today + 0) * 1440 + 19 * 60 + 0) (i + 1)),
      r.timeSlot ≠ (today + 0) * 1440 + 19 * 60 + 0 + 30 := by
    intro r hr
    rcases List.mem_map.mp hr with ⟨i, _, rfl⟩
    show (today + 0) * 1440 + 19 * 60 + 0 ≠ (today + 0) * 1440 + 19 * 60 + 0 + 30
    omega
  have hB := fill_slot_fresh (ensure_demo_customers ct).2
    ((today + 0) * 1440 + 19 * 60 + 0 + 30) 29 _ hfreshB
  have hmain : seed_capacity_scenario ct rs today 0 19 0 30
      = ((ensure_demo_customers ct).1,
         (List.range 30).map (fun i => mkReservation (ensure_demo_customers ct).2
            ((today + 0) * 1440 + 19 * 60 + 0) (i + 1))
          ++ (List.range 29).map (fun i => mkReservation (ensure_demo_customers ct).2
            ((today + 0) * 1440 + 19 * 60 + 0 + 30) (i + 1)),
         some ⟨(today + 0) * 1440 + 19 * 60 + 0, (today + 0) * 1440 + 19 * 60 + 0 + 30,
           30, 29⟩) := by
    rw [seed_capacity_scenario]
    simp only [hne, Bool.false_eq_true, if_false]
    rw [hA]
    dsimp only
    rw [hB]
  refine ⟨?_, ?_, ?_, ?_, ?_, ?_⟩
  · rw [hmain]
    dsimp only
    rw [e1, e2]
  · rw [hmain]
    dsimp only
    rw [e1, e2]
  · rw [hmain]
    dsimp only
    rw [e1, e2, countSlot, List.filter_append, filter_mkRes_self,
      filter_mkRes_ne _ _ _ _ (by omega), List.append_nil, List.length_map, List.length_range]
  · rw [hmain]
    dsimp only
    rw [e1, e2, countSlot, List.filter_append, filter_mkRes_self,
      filter_mkRes_ne _ _ _ _ (by omega), List.nil_append, List.length_map, List.length_range]
  · rw [hmain]
    dsimp only
    rw [e1, e2, tablesAt, List.filter_append, filter_mkRes_self,
      filter_mkRes_ne _ _ _ _ (by omega), List.append_nil, List.map_map]
    rfl
  · rw [hmain]
    dsimp only
    rw [e1, e2, tablesAt, List.filter_append, filter_mkRes_self,
      filter_mkRes_ne _ _ _ _ (by omega), List.nil_append, List.map_map]
    rfl

/-! ### Shape of created rows (C10) -/

theorem mkRes_good (customers : List Customer) (dt i : Nat) (hi : i < MAX_PER_SLOT) :
    1 ≤ (mkReservation customers dt (i + 1)).tableNumber ∧
    (mkReservation customers dt (i + 1)).tableNumber ≤ MAX_PER_SLOT ∧
    (mkReservation customers dt (i + 1)).partySize
      = party_pattern.getD (((mkReservation customers dt (i + 1)).tableNumber - 1) % 6) 0 ∧
    (mkReservation customers dt (i + 1)).customerId
      = (customers.getD (((mkReservation customers dt (i + 1)).tableNumber - 1)
          % customers.length) defaultCustomer).id := by
  refine ⟨?_, ?_, rfl, rfl⟩
  · show 1 ≤ i + 1
    omega
  · show i + 1 ≤ MAX_PER_SLOT
    omega

/-- C10: every reservation created by any seeder (normal, small, or
capacity scenario) has a table number in 1..30, its party size is the
fixed pattern entry at index `(table_number - 1) mod 6`, and its
customer is the provisioned demo customer at index
`(table_number - 1) mod (number of demo customers)` — party size and
customer are functions of the table number alone. -/
theorem created_reservation_shape :
    (∀ (ct : CustomerTable) (today days startHour endHour step : Nat) (mode : Mode)
       (fullyBookDemo : Bool) (rs : List Reservation),
      ∀ r ∈ (seed_reservations ct today days startHour endHour step mode fullyBookDemo
          rs).2.reservations,
        r ∈ rs ∨
        (1 ≤ r.tableNumber ∧ r.tableNumber ≤ MAX_PER_SLOT ∧
         r.partySize = party_pattern.getD ((r.tableNumber - 1) % 6) 0 ∧
         r.customerId = ((ensure_demo_customers ct).2.getD
           ((r.tableNumber - 1) % (ensure_demo_customers ct).2.length) defaultCustomer).id)) ∧
    (∀ (ct : CustomerTable) (rs : List Reservation) (today dayOffset hour minute step : Nat),
      ∀ r ∈ (seed_capacity_scenario ct rs today dayOffset hour minute step).2.1,
        1 ≤ r.tableNumber ∧ r.tableNumber ≤ MAX_PER_SLOT ∧
        r.partySize = party_pattern.getD ((r.tableNumber - 1) % 6) 0 ∧
        r.customerId = ((ensure_demo_customers ct).2.getD
          ((r.tableNumber - 1) % (ensure_demo_customers ct).2.length) defaultCustomer).id) := by
  constructor
  · intro ct today days startHour endHour step mode fullyBookDemo rs
    set customers := (ensure_demo_customers ct).2 with hcs
    set Q : Reservation → Prop := fun r =>
      1 ≤ r.tableNumber ∧ r.tableNumber ≤ MAX_PER_SLOT ∧
      r.partySize = party_pattern.getD ((r.tableNumber - 1) % 6) 0 ∧
      r.customerId = (customers.getD
        ((r.tableNumber - 1) % customers.length) defaultCustomer).id with hQ
    show ∀ r ∈ _, r ∈ rs ∨ Q r
    have hmk : ∀ dt i, i < MAX_PER_SLOT → Q (mkReservation customers dt (i + 1)) := by
      intro dt i hi
      rw [hQ]
      exact mkRes_good customers dt i hi
    have hslot : ∀ (d : Nat) (acc : SeedAcc) (dt : Nat),
        (∀ r ∈ acc.reservations, r ∈ rs ∨ Q r) →
        (∀ r ∈ (seedOneSlot customers mode fullyBookDemo (min 2 (days - 1)) d acc
            dt).reservations, r ∈ rs ∨ Q r) := by
      intro d acc dt hP
      obtain ⟨extra, heq, hextra⟩ := fill_loop_extra customers dt
        (List.range (min (targetFor mode fullyBookDemo (min 2 (days - 1)) d dt) MAX_PER_SLOT))
        acc.reservations 0
      intro r hr
      have : (seedOneSlot customers mode fullyBookDemo (min 2 (days - 1)) d acc dt).reservations
          = acc.reservations ++ extra := by
        show (fill_slot customers dt _ acc.reservations).1 = _
        rw [fill_slot, heq]
      rw [this] at hr
      rcases List.mem_append.mp hr with h | h
      · exact hP r h
      · obtain ⟨i, hi, rfl⟩ := hextra r h
        rw [List.mem_range] at hi
        exact Or.inr (hmk dt i (by omega))
    rw [seed_reservations]
    by_cases hemp : (ensure_demo_customers ct).2.isEmpty
    · simp only [hemp, if_pos]
      intro r hr
      exact Or.inl hr
    · simp only [hemp, Bool.false_eq_true, not_false_iff, if_neg]
      refine foldl_preserves (fun (acc : SeedAcc) => ∀ r ∈ acc.reservations, r ∈ rs ∨ Q r)
        _ ?_ _ _ ?_
      · intro acc d hP
        rw [seedOneDay]
        exact foldl_preserves (fun (acc : SeedAcc) => ∀ r ∈ acc.reservations, r ∈ rs ∨ Q r) _
          (fun a dt ha => hslot d a dt ha) _ acc hP
      · intro r hr
        exact Or.inl hr
  · intro ct rs today dayOffset hour minute step
    set customers := (ensure_demo_customers ct).2 with hcs
    set Q : Reservation → Prop := fun r =>
      1 ≤ r.tableNumber ∧ r.tableNumber ≤ MAX_PER_SLOT ∧
      r.partySize = party_pattern.getD ((r.tableNumber - 1) % 6) 0 ∧
      r.customerId = (customers.getD
        ((r.tableNumber - 1) % customers.length) defaultCustomer).id with hQ
    show ∀ r ∈ _, Q r
    have hmk : ∀ dt i, i < MAX_PER_SLOT → Q (mkReservation customers dt (i + 1)) := by
      intro dt i hi
      rw [hQ]
      exact mkRes_good customers dt i hi
    rw [seed_capacity_scenario]
    have hne : customers.isEmpty = false := ensure_ne_nil ct
    simp only [hne, Bool.false_eq_true, if_false]
    obtain ⟨extra1, heq1, hextra1⟩ := fill_loop_extra customers
      ((today + dayOffset) * 1440 + hour * 60 + minute) (List.range 30) [] 0
    obtain ⟨extra2, heq2, hextra2⟩ := fill_loop_extra customers
      ((today + dayOffset) * 1440 + hour * 60 + minute + step) (List.range 29)
      ((List.range 30).foldl
        (slotStep customers ((today + dayOffset) * 1440 + hour * 60 + minute)) ([], 0)).1 0
    intro r hr
    simp only [fill_slot] at hr
    rw [heq2] at hr
    rcases List.mem_append.mp hr with h | h
    · rw [heq1] at h
      rw [List.nil_append] at h
      obtain ⟨i, hi, rfl⟩ := hextra1 r h
      rw [List.mem_range] at hi
      exact hmk _ i (by rw [MAX_PER_SLOT]; omega)
    · obtain ⟨i, hi, rfl⟩ := hextra2 r h
      rw [List.mem_range] at hi
      exact hmk _ i (by rw [MAX_PER_SLOT]; omega)

theorem slots_for_day_spec_witness :
    (17 ≤ 23 ∧ 23 ≤ 23 ∧ 0 < 30) ∧
    (slots_for_day 5 17 23 30).length = (23 - 17) * 60 / 30 + 1 :=
  ⟨⟨by decide, by decide, by decide⟩,
   (slots_for_day_spec 5 17 23 30 (by decide) (by decide) (by decide)).1⟩

theorem slots_for_day_empty_witness :
    (16 < 17 ∧ 0 < 30) ∧ slots_for_day 3 17 16 30 = [] :=
  ⟨⟨by decide, by decide⟩,
   (slots_for_day_empty 3 17 16 30 (by decide) (by decide)).1⟩

theorem slots_loop_termination_witness :
    ((0 : Int) < 30 ∧ ∃ fuel out, slots_go_fuel 1380 30 fuel 1020 = some out) ∧
    ((0 : Int) ≤ 0 ∧ (1020 : Int) ≤ 1380 ∧
      ∀ fuel, slots_go_fuel 1380 0 fuel 1020 = none) :=
  ⟨⟨by decide, slots_loop_termination.1 1380 30 1020 (by decide)⟩,
   ⟨by decide, by decide, slots_loop_termination.2 1380 0 1020 (by decide) (by decide)⟩⟩

theorem created_reservation_shape_witness :
    ((seed_reservations ⟨[], 1⟩ 0 1 17 17 30 .small false []).2.reservations.getD 0
        ⟨0, 0, 0, 0⟩
      ∈ (seed_reservations ⟨[], 1⟩ 0 1 17 17 30 .small false []).2.reservations) ∧
    ((seed_reservations ⟨[], 1⟩ 0 1 17 17 30 .small false []).2.reservations.getD 0
        ⟨0, 0, 0, 0⟩ ∈ ([] : List Reservation) ∨
      (1 ≤ ((seed_reservations ⟨[], 1⟩ 0 1 17 17 30 .small false []).2.reservations.getD 0
          ⟨0, 0, 0, 0⟩).tableNumber ∧
       ((seed_reservations ⟨[], 1⟩ 0 1 17 17 30 .small false []).2.reservations.getD 0
          ⟨0, 0, 0, 0⟩).tableNumber ≤ MAX_PER_SLOT ∧
       ((seed_reservations ⟨[], 1⟩ 0 1 17 17 30 .small false []).2.reservations.getD 0
          ⟨0, 0, 0, 0⟩).partySize
        = party_pattern.getD
            ((((seed_reservations ⟨[], 1⟩ 0 1 17 17 30 .small false []).2.reservations.getD 0
              ⟨0, 0, 0, 0⟩).tableNumber - 1) % 6) 0 ∧
       ((seed_reservations ⟨[], 1⟩ 0 1 17 17 30 .small false []).2.reservations.getD 0
          ⟨0, 0, 0, 0⟩).customerId
        = ((ensure_demo_customers ⟨[], 1⟩).2.getD
            ((((seed_reservations ⟨[], 1⟩ 0 1 17 17 30 .small false []).2.reservations.getD 0
              ⟨0, 0, 0, 0⟩).tableNumber - 1) % (ensure_demo_customers ⟨[], 1⟩).2.length)
            defaultCustomer).id)) :=
  ⟨by decide,
   created_reservation_shape.1 ⟨[], 1⟩ 0 1 17 17 30 .small false [] _ (by decide)⟩

/-! ### Route handlers (C1, C2) -/

/-- C1: the `admin_seed` and `admin_small_seed` handlers reject a missing
token with 401 and leave the database untouched, but `admin_seed_capacity`
reads the `X-Admin-Token` header and never compares it: a request with no
token (or a wrong one) proceeds to wipe and seed, returning HTTP 200 and
mutating the database — contradicting the module's own documentation. -/
theorem admin_seed_capacity_skips_auth :
    (admin_seed "dev-secret-123" none 0 7 17 23 30 true false none
        ⟨⟨[], 1⟩, [⟨1, 2, 0, 1⟩]⟩).1 = .unauthorized ∧
    (admin_seed "dev-secret-123" none 0 7 17 23 30 true false none
        ⟨⟨[], 1⟩, [⟨1, 2, 0, 1⟩]⟩).2 = ⟨⟨[], 1⟩, [⟨1, 2, 0, 1⟩]⟩ ∧
    (admin_small_seed "dev-secret-123" none 0 1 17 23 30 false none
        ⟨⟨[], 1⟩, [⟨1, 2, 0, 1⟩]⟩).1 = .unauthorized ∧
    (admin_small_seed "dev-secret-123" none 0 1 17 23 30 false none
        ⟨⟨[], 1⟩, [⟨1, 2, 0, 1⟩]⟩).2 = ⟨⟨[], 1⟩, [⟨1, 2, 0, 1⟩]⟩ ∧
    ((admin_seed_capacity "dev-secret-123" none 0 0 19 0 30
        ⟨⟨[], 1⟩, [⟨1, 2, 0, 1⟩]⟩).1).status = 200 ∧
    (admin_seed_capacity "dev-secret-123" none 0 0 19 0 30
        ⟨⟨[], 1⟩, [⟨1, 2, 0, 1⟩]⟩).2 ≠ ⟨⟨[], 1⟩, [⟨1, 2, 0, 1⟩]⟩ := by
  refine ⟨by decide, by decide, by decide, by decide, by decide, by decide⟩

/-- C2 counterexample: an authorized seed request with one pre-existing
reservation whose seeding step raises a database error responds 500, but
the persisted state is the wiped state — not the state before the
request — because the wipe was committed before seeding began. -/
theorem admin_seed_rollback_counterexample :
    (admin_seed "s" (some "s") 0 7 17 23 30 true false (some "boom")
        ⟨⟨[], 1⟩, [⟨1, 2, 1020, 1⟩]⟩).1 = .failure "boom" ∧
    (admin_seed "s" (some "s") 0 7 17 23 30 true false (some "boom")
        ⟨⟨[], 1⟩, [⟨1, 2, 1020, 1⟩]⟩).2 ≠ ⟨⟨[], 1⟩, [⟨1, 2, 1020, 1⟩]⟩ := by
  refine ⟨by decide, by decide⟩

/-- C2 (amended): on an authorized request to `/api/admin/seed` or
`/api/admin/smallseed` whose seeding step raises a database error, the
handler rolls back the uncommitted seeding work and responds HTTP 500
with `{"ok": false, "error": msg}`; the wipe of the reservations (and
optionally customers) table, committed before seeding, persists — the
final state is the wiped state, not the pre-request state. -/
theorem admin_seed_failure_behavior (adminToken : String)
    (today days startHour endHour step : Nat) (fullyBookDemo wipeCustomers : Bool)
    (msg : String) (db : DBState) :
    admin_seed adminToken (some adminToken) today days startHour endHour step fullyBookDemo
        wipeCustomers (some msg) db
      = (.failure msg, wipeTables wipeCustomers db) ∧
    admin_small_seed adminToken (some adminToken) today days startHour endHour step
        wipeCustomers (some msg) db
      = (.failure msg, wipeTables wipeCustomers db) ∧
    SeedResponse.status (.failure msg) = 500 := by
  refine ⟨?_, ?_, rfl⟩
  · rw [admin_seed, if_neg (by simp)]
  · rw [admin_small_seed, if_neg (by simp)]
